import Mathlib

/-!
Verification of the Join task/contact management scripts.

This file gives a shallow embedding of the pure data-shaping logic of the
repository (login scan, contact form validation, subtask progress and
toggling, board counters, contact loading/sorting/grouping, assigned-contact
snapshots, initials) and proves the stated properties about it.

Modelling conventions:
* JS objects keyed by store ids become association lists `List (String × α)`;
  `Object.values` is `List.map Prod.snd`, `Object.entries` is the list itself.
* `fetch` results become explicit arguments: a thrown error is `Except.error`,
  a `null` JSON body is `none`, data is `some`.
* Randomness (`Math.random` inside `generateRandomColor`) is threaded as an
  explicit pick function.
* A JS value that may be `undefined` becomes an `Option`; a JS function that
  can throw a `TypeError` on some inputs returns `Option` (`none` = fault).
* Strings compare with `===`, which is plain string equality.
-/

namespace Join

/-- A subtask record `{name, completed}` as stored under `task.subtasks`. -/
structure Subtask where
  name : String
  completed : Bool
deriving Repr, DecidableEq

/-- The pair `{name, color}` stored in `assignedTo` snapshots. -/
structure NameColor where
  name : String
  color : String
deriving Repr, DecidableEq

/-- A task record as rendered on the board.  `subtasks` and `assignedTo` are
id-keyed maps, embedded as association lists. -/
structure Task where
  title : String
  description : String
  dueDate : String
  priority : String
  badge : String
  category : String
  assignedTo : List (String × NameColor)
  subtasks : List (String × Subtask)
deriving Repr, DecidableEq

/-- An element of the board `tasks` array: `{id, task}`. -/
structure BoardTask where
  id : String
  task : Task
deriving Repr, DecidableEq

/-- The `{completed, total}` record returned by `calculateSubtaskProgress`. -/
structure Progress where
  completed : Nat
  total : Nat
deriving Repr, DecidableEq

/-- Source `calculateSubtaskProgress(subtasks)` from `boardSubtasks.js`:
`Object.values(subtasks)`, the `length === 0` early return, and the count of
subtasks with `completed === true`. -/
def calculateSubtaskProgress (subtasks : List (String × Subtask)) : Progress :=
  let subtaskArray := subtasks.map Prod.snd
  if subtaskArray.length = 0 then { completed := 0, total := 0 }
  else
    { completed := (subtaskArray.filter (fun s => s.completed == true)).length,
      total := subtaskArray.length }

/-- The in-place update `task.task.subtasks[subtaskId].completed = !...`
expressed on the association list: the entry keyed `subtaskId` gets its
`completed` flag negated, every other entry is kept. -/
def toggleSubtaskEntry (subtaskId : String) (entries : List (String × Subtask)) :
    List (String × Subtask) :=
  entries.map fun e =>
    if e.1 = subtaskId then (e.1, { e.2 with completed := !e.2.completed }) else e

/-- Source `toggleSubtask(taskIndex, subtaskId)` from `boardSubtasks.js`, as a pure
update of the `tasks` array.  The source faults (`TypeError`) when
`taskIndex` is out of range, so only in-range indices are in the model's
intended domain; out of range we return the array unchanged. -/
def toggleSubtask (tasks : List BoardTask) (taskIndex : Nat) (subtaskId : String) :
    List BoardTask :=
  match tasks[taskIndex]? with
  | none => tasks
  | some bt =>
      tasks.set taskIndex
        { bt with task := { bt.task with subtasks := toggleSubtaskEntry subtaskId bt.task.subtasks } }

/-- JS property access `obj[key]` on an id-keyed map embedded as an
association list: the value at the first entry with that key, or `none`
(`undefined`) when no entry has it. -/
def getProp (entries : List (String × α)) (k : String) : Option α :=
  match entries with
  | [] => none
  | e :: t => if e.1 = k then some e.2 else getProp t k

/-- A concrete task used to instantiate the toggle theorem. -/
abbrev sampleTask : Task :=
  { title := "t1", description := "d1", dueDate := "2024-01-02",
    priority := "urgent", badge := "Technical Task", category := "Done",
    assignedTo := [("contact1", { name := "Ann B", color := "#AAAAAA" })],
    subtasks := [("s1", { name := "b", completed := true }),
                 ("s2", { name := "c", completed := false })] }

/-- A concrete board used to instantiate the toggle theorem. -/
abbrev sampleBoard : List BoardTask := [{ id := "-A", task := sampleTask }]

/-- The six module-level counters mutated by `updateCount`. -/
structure Counters where
  taskCount : Nat
  ToDoCount : Nat
  doneCount : Nat
  progressCount : Nat
  feedbackCount : Nat
  urgencyCount : Nat
deriving Repr, DecidableEq

/-- All counters at zero, their initial values. -/
def countersZero : Counters :=
  { taskCount := 0, ToDoCount := 0, doneCount := 0, progressCount := 0,
    feedbackCount := 0, urgencyCount := 0 }

/-- The body of the `forEach` in `updateCount`: increment `taskCount`, then
the `else if` chain on `task.category`, then the `priority === "urgent"`
check. -/
def updateCountStep (c : Counters) (taskObj : BoardTask) : Counters :=
  let task := taskObj.task
  let c := { c with taskCount := c.taskCount + 1 }
  let c :=
    if task.category = "To-Do" then { c with ToDoCount := c.ToDoCount + 1 }
    else if task.category = "Done" then { c with doneCount := c.doneCount + 1 }
    else if task.category = "In Progress" then { c with progressCount := c.progressCount + 1 }
    else if task.category = "Await Feedback" then { c with feedbackCount := c.feedbackCount + 1 }
    else c
  if task.priority = "urgent" then { c with urgencyCount := c.urgencyCount + 1 } else c

/-- Source `updateCount(tasks)` from the summary script: fold the per-task counter
update over the whole array, starting from the current counter values. -/
def updateCount (init : Counters) (tasks : List BoardTask) : Counters :=
  tasks.foldl updateCountStep init

/-- A contact record as stored in the remote `contacts` collection: the
fields written by signup/add-contact.  `color` may be absent (`none`) before
the client backfills it. -/
structure RawContact where
  name : String
  email : String
  phone : String
  password : String
  color : Option String
deriving Repr, DecidableEq

/-- The scan in `login()`:
`Object.values(contactAsJson.contacts || {}).find(c => c.email === email && c.password === password)`. -/
def login (contacts : List RawContact) (email password : String) : Option RawContact :=
  contacts.find? fun c => c.email == email && c.password == password

/-- The externally visible effects of `processLogin`: the `putData` of
`currentUser` and the `window.location.href` assignment. -/
structure LoginEffects where
  currentUserWrite : Option String
  redirect : Option String
deriving Repr, DecidableEq

/-- Source `processLogin(signedUpContact)`: on a defined contact it writes
`currentUser = {name}` and redirects to `summary.html`; on `undefined` it
only shows the failure popup, with no write and no redirect. -/
def processLogin (signedUpContact : Option RawContact) : LoginEffects :=
  match signedUpContact with
  | some c => { currentUserWrite := some c.name, redirect := some "summary.html" }
  | none => { currentUserWrite := none, redirect := none }

/-- A processed contact as produced by `processContacts`/`prepareSortedContacts`:
`{id, ...contact, color}` with a definitely-present color. -/
structure Contact where
  id : String
  name : String
  email : String
  phone : String
  password : String
  color : String
deriving Repr, DecidableEq

/-- The value of the `assignedTo` field built by `getAssignedContacts`:
either an object keyed `contact1..contactN`, or the empty string the
function returns for an empty selection. -/
inductive AssignedTo where
  | map (entries : List (String × NameColor))
  | emptyString
deriving Repr, DecidableEq

/-- Source `getAssignedContacts()`: the `reduce` over `selectedContacts` building
`assignedTo["contact" + (index+1)] = {name, color}`, or `""` when the
selection is empty. -/
def getAssignedContacts (selectedContacts : List Contact) : AssignedTo :=
  if 0 < selectedContacts.length then
    .map (selectedContacts.enum.map fun p =>
      ("contact" ++ toString (p.1 + 1), { name := p.2.name, color := p.2.color }))
  else .emptyString

/-- JS `String.prototype.split` with a one-character separator, acting on the
character list: every occurrence of the separator splits, empty pieces are
kept, so `"a  b".split(" ")` gives `["a","","b"]` and `"".split(" ")` gives
`[""]`. -/
def splitChars (sep : Char) : List Char → List (List Char)
  | [] => [[]]
  | c :: rest =>
    if c = sep then [] :: splitChars sep rest
    else
      match splitChars sep rest with
      | [] => [[c]]
      | h :: t => (c :: h) :: t

/-- JS `s.split(sep)` for a one-character separator, as a list of strings. -/
def jsSplit (sep : Char) (s : String) : List String :=
  (splitChars sep s.toList).map String.mk

/-- The first characters of the name parts, uppercased, as produced by
`parts.map(part => part[0].toUpperCase())`; `none` when some part is the
empty string, on which `part[0].toUpperCase()` faults (`TypeError`). -/
def initialsOfParts : List String → Option (List Char)
  | [] => some []
  | p :: rest =>
    match p.toList with
    | [] => none
    | c :: _ =>
        match initialsOfParts rest with
        | none => none
        | some cs => some (c.toUpper :: cs)

/-- Source `getInitials(name)` from `script.js`.  The argument is `none` for a
missing (`undefined`) name; the result is `none` when the source would throw
a `TypeError`. -/
def getInitials (name : Option String) : Option String :=
  match name with
  | none => some "G"
  | some n =>
      if n = "" ∨ n = "guest" then some "G"
      else
        match initialsOfParts (jsSplit ' ' n) with
        | none => none
        | some cs => some (String.mk (cs.take 2))

/-- The character class `\s` of JS regular expressions (ECMAScript
WhiteSpace ∪ LineTerminator). -/
def isJsWhitespace (c : Char) : Bool :=
  c = ' ' || c = '\t' || c = '\n' || c = Char.ofNat 11 || c = Char.ofNat 12 || c = '\r' ||
  c = Char.ofNat 0xA0 || c = Char.ofNat 0x1680 ||
  (Char.ofNat 0x2000 ≤ c && c ≤ Char.ofNat 0x200A) ||
  c = Char.ofNat 0x2028 || c = Char.ofNat 0x2029 || c = Char.ofNat 0x202F ||
  c = Char.ofNat 0x205F || c = Char.ofNat 0x3000 || c = Char.ofNat 0xFEFF

/-- The character class `[a-zA-Z]` of the email pattern's TLD part. -/
def isAsciiLetter (c : Char) : Bool :=
  ('a' ≤ c && c ≤ 'z') || ('A' ≤ c && c ≤ 'Z')

/-- The character class `[a-zA-Z0-9-]` of the email pattern's domain part. -/
def isAlnumHyphen (c : Char) : Bool :=
  isAsciiLetter c || ('0' ≤ c && c ≤ '9') || c = '-'

/-- The character class `[0-9]` of the phone pattern. -/
def isDigit09 (c : Char) : Bool :=
  '0' ≤ c && c ≤ '9'

/-- Source `validateEmail(email)`: `.test` of `/^[^\s@]+@[a-zA-Z0-9-]+\.[a-zA-Z]{2,6}$/`.
Since the local part `[^\s@]+` can contain no `@`, the domain `[a-zA-Z0-9-]+`
neither `@` nor `.`, and the TLD `[a-zA-Z]{2,6}` no `.`, a string matches the
pattern exactly when it has one `@`, one `.` after it, and the three pieces
satisfy their character classes; the matcher splits on those separators
(proved equivalent to the decomposition in `validateEmail_iff`). -/
def validateEmail (email : String) : Bool :=
  match splitChars '@' email.toList with
  | [l, r] =>
      (!l.isEmpty && l.all fun c => !isJsWhitespace c) &&
      (match splitChars '.' r with
       | [d, t] =>
           (!d.isEmpty && d.all isAlnumHyphen) &&
           (2 ≤ t.length && t.length ≤ 6 && t.all isAsciiLetter)
       | _ => false)
  | _ => false

/-- Source `validatePhone(phone)`: `.test` of `/^[0-9]+$/`. -/
def validatePhone (phone : String) : Bool :=
  !phone.toList.isEmpty && phone.toList.all isDigit09

/-- Source `validateContactFields(name, email, phone)` from `contacts3.js`: the
four early-return checks, in source order (`!field` on a string is the
empty-string test). -/
def validateContactFields (name email phone : String) : Bool :=
  if name = "" || email = "" || phone = "" then false
  else if (jsSplit ' ' name).length < 2 then false
  else if !validateEmail email then false
  else if !validatePhone phone then false
  else true

/-- The `showErrorMessage` call made by the failing branch of
`validateContactFields`, `none` when validation passes. -/
def shownErrorMessage (name email phone : String) : Option String :=
  if name = "" || email = "" || phone = "" then some "Please complete all fields."
  else if (jsSplit ' ' name).length < 2 then some "Please enter your first and last name."
  else if !validateEmail email then some "Please enter a valid email address."
  else if !validatePhone phone then some "Please enter a valid phone number."
  else none

/-- The body of the new contact object built by `createNewContact`. -/
structure NewContact where
  name : String
  email : String
  phone : String
  color : String
deriving Repr, DecidableEq

/-- Source `createNewContact(name, email, phone)`; the `generateRandomColor()`
result is threaded as the explicit `color` argument. -/
def createNewContact (name email phone color : String) : NewContact :=
  { name := name, email := email, phone := phone, color := color }

/-- Source `saveNewContact()` on already-trimmed form values: `some contact` when
the POST to `contacts.json` is issued with that body, `none` when
validation failed and no network write happens. -/
def saveNewContact (name email phone color : String) : Option NewContact :=
  if validateContactFields name email phone then
    some (createNewContact name email phone color)
  else none

/-- The language of `/^[^\s@]+@[a-zA-Z0-9-]+\.[a-zA-Z]{2,6}$/`, stated as
the regex reads: some decomposition local `@` domain `.` tld with each part
in its character class. -/
def emailRegexLang (e : String) : Prop :=
  ∃ l d t : List Char,
    e.toList = l ++ '@' :: (d ++ '.' :: t) ∧
    l ≠ [] ∧ (∀ c ∈ l, isJsWhitespace c = false ∧ c ≠ '@') ∧
    d ≠ [] ∧ (∀ c ∈ d, isAlnumHyphen c = true) ∧
    2 ≤ t.length ∧ t.length ≤ 6 ∧ (∀ c ∈ t, isAsciiLetter c = true)

/-- Source `generateRandomColor()`: `'#'` followed by six characters of
`"0123456789ABCDEF"`; the `Math.floor(Math.random() * 16)` draws are the
explicit `pick` argument. -/
def generateRandomColor (pick : Nat → Nat) : String :=
  String.mk ('#' :: ((List.range 6).map fun i =>
    "0123456789ABCDEF".toList.getD (pick i % 16) '0'))

/-- JS `a || b` on a possibly-absent string `a`: `b` when `a` is `undefined`
or the (falsy) empty string. -/
def jsOrString (v : Option String) (d : String) : String :=
  match v with
  | none => d
  | some s => if s = "" then d else s

/-- JS truthiness of a possibly-absent string, as used by
`if (!data[contact.id].color)`. -/
def jsTruthyStr : Option String → Bool
  | none => false
  | some s => !(s == "")

/-- Source `processContacts(data)`:
`Object.entries(data).map(([id, contact]) => ({id, ...contact, color: contact.color || generateRandomColor()})).sort((a, b) => a.name.localeCompare(b.name))`.
The comparator `localeCompare` is abstracted as the boolean order `le`;
`gen i` is the color `generateRandomColor()` would return for the entry at
position `i`. -/
def processContacts (le : String → String → Bool) (gen : Nat → String)
    (data : List (String × RawContact)) : List Contact :=
  ((data.enum.map fun p =>
    { id := p.2.1, name := p.2.2.name, email := p.2.2.email, phone := p.2.2.phone,
      password := p.2.2.password,
      color := jsOrString p.2.2.color (gen p.1) : Contact }).mergeSort
    fun a b => le a.name b.name)

/-- Source `prepareSortedContacts(data)` (the add-task copy of `processContacts`,
with an identical body). -/
def prepareSortedContacts (le : String → String → Bool) (gen : Nat → String)
    (data : List (String × RawContact)) : List Contact :=
  ((data.enum.map fun p =>
    { id := p.2.1, name := p.2.2.name, email := p.2.2.email, phone := p.2.2.phone,
      password := p.2.2.password,
      color := jsOrString p.2.2.color (gen p.1) : Contact }).mergeSort
    fun a b => le a.name b.name)

/-- Source `ensureColorsInDatabase(sortedContacts, data)`: the list of
`saveColorToDatabase(contactId, color)` PATCH calls it issues, one per
contact whose raw record `data[contact.id]` has a falsy `color`.  (For an id
missing from `data` the source would fault; ids produced by
`processContacts` are always present.) -/
def ensureColorsInDatabase (sortedContacts : List Contact)
    (data : List (String × RawContact)) : List (String × String) :=
  sortedContacts.filterMap fun contact =>
    match getProp data contact.id with
    | some raw => if jsTruthyStr raw.color then none else some (contact.id, contact.color)
    | none => none

/-- Source `loadContacts()`: `some` result for a normal return, `none` for the
implicit `undefined` return when the fetched data is `null`; a thrown fetch
is `Except.error` and yields `some []` from the catch branch.  (The render
and color-backfill side effects are modelled separately.) -/
def loadContacts (le : String → String → Bool) (gen : Nat → String)
    (fetched : Except Unit (Option (List (String × RawContact)))) :
    Option (List Contact) :=
  match fetched with
  | .error _ => some []
  | .ok none => none
  | .ok (some data) => some (processContacts le gen data)

/-- Source `loadTaskContacts()`: sorted contacts on data, `[]` on `null` data, `[]`
on a caught error. -/
def loadTaskContacts (le : String → String → Bool) (gen : Nat → String)
    (fetched : Except Unit (Option (List (String × RawContact)))) : List Contact :=
  match fetched with
  | .error _ => []
  | .ok none => []
  | .ok (some data) => prepareSortedContacts le gen data

/-- Source `mapTasksWithIds(data)`: `Object.entries(data).map(([id, task]) => ({id, ...task}))`;
the flat spread is embedded as the id paired with the task record. -/
def mapTasksWithIds (data : List (String × Task)) : List BoardTask :=
  data.map fun p => { id := p.1, task := p.2 }

/-- Source `loadTasks()`: mapped tasks on data, `[]` on `null` data, `[]` on a
caught error. -/
def loadTasks (fetched : Except Unit (Option (List (String × Task)))) : List BoardTask :=
  match fetched with
  | .error _ => []
  | .ok none => []
  | .ok (some data) => mapTasksWithIds data

/-- A render output item: a letter divider (standing for the letter element
plus its divider line) or a contact card. -/
inductive RenderItem where
  | divider (letter : String)
  | card (contact : Contact)
deriving Repr, DecidableEq

/-- Source `contact.name.charAt(0).toUpperCase()` as computed by
`getInitialsAndFirstLetter`; the empty string when the name is empty. -/
def firstLetterOf (c : Contact) : String :=
  match c.name.toList with
  | [] => ""
  | ch :: _ => String.mk [ch.toUpper]

/-- One iteration of the `forEach` in `renderContactsList` /
`processContact`: emit a divider before the card when the first letter has
not been displayed yet, and record it in `displayedLetters`. -/
def renderStep (seen : List String) (c : Contact) : List RenderItem × List String :=
  let L := firstLetterOf c
  if L ∈ seen then ([.card c], seen)
  else ([.divider L, .card c], L :: seen)

/-- The render loop from a given `displayedLetters` state. -/
def renderFrom (seen : List String) : List Contact → List RenderItem
  | [] => []
  | c :: rest => (renderStep seen c).1 ++ renderFrom (renderStep seen c).2 rest

/-- The `displayedLetters` state after processing a list of contacts. -/
def seenAfter (seen : List String) : List Contact → List String
  | [] => seen
  | c :: rest => seenAfter (renderStep seen c).2 rest

/-- Source `renderContactsList(contacts)`: the stream of DOM nodes appended to the
contacts area, starting from an empty `displayedLetters`. -/
def renderContactsList (contacts : List Contact) : List RenderItem :=
  renderFrom [] contacts

/-- The contact of a card item, `none` for a divider. -/
def cardOf : RenderItem → Option Contact
  | .card c => some c
  | .divider _ => none

/-- The number of occurrences of one item in a render stream. -/
def countItem (it : RenderItem) (l : List RenderItem) : Nat :=
  (l.filter fun x => x = it).length

/-- A concrete contact collection used to instantiate the login theorem. -/
abbrev sampleContacts : List RawContact :=
  [{ name := "Max Mustermann", email := "max@join.de", phone := "12345",
     password := "pw1", color := some "#FF0000" },
   { name := "Erika Musterfrau", email := "erika@join.de", phone := "678",
     password := "pw2", color := none }]

/-- A concrete selection used to instantiate the assigned-contacts theorem. -/
abbrev sampleSelected : List Contact :=
  [{ id := "-A", name := "Max Mustermann", email := "max@join.de", phone := "12345",
     password := "pw1", color := "#FF0000" },
   { id := "-B", name := "Erika Musterfrau", email := "erika@join.de", phone := "678",
     password := "pw2", color := "#00FF00" }]

/-- A concrete raw keyed collection used to instantiate the color and
grouping theorems: one record with a color, one without. -/
abbrev sampleRawData : List (String × RawContact) :=
  [("-A", { name := "Max Mustermann", email := "max@join.de", phone := "12345",
            password := "pw1", color := some "#FF0000" }),
   ("-B", { name := "Erika Musterfrau", email := "erika@join.de", phone := "678",
            password := "pw2", color := none })]

/-- A concrete stand-in for the `localeCompare` comparator: the library
order on strings, as a boolean. -/
abbrev localeLe : String → String → Bool := fun a b => decide (a ≤ b)

/-- A concrete color supply for instantiations. -/
abbrev flatGen : Nat → String := fun _ => "#ABCDEF"

/-- A concrete random draw supply for instantiations. -/
abbrev wPicks : Nat → Nat → Nat := fun _ _ => 0

/-- C3 helper: filtering the values equals filtering the entries. -/
theorem filter_map_snd_length (m : List (String × Subtask)) (p : Subtask → Bool) :
    ((m.map Prod.snd).filter p).length = (m.filter (fun e => p e.2)).length := by
  induction m with
  | nil => rfl
  | cons e t ih =>
      by_cases h : p e.2 <;> simp [List.filter, h, ih]

/-- C3: for every subtasks map, `calculateSubtaskProgress` returns
`total` = number of entries and `completed` = number of entries whose
`completed` field is `true`; hence `completed ≤ total`, and the empty map
yields `{completed := 0, total := 0}`. -/
theorem calculateSubtaskProgress_spec (m : List (String × Subtask)) :
    (calculateSubtaskProgress m).total = m.length ∧
    (calculateSubtaskProgress m).completed = (m.filter (fun e => e.2.completed)).length ∧
    (calculateSubtaskProgress m).completed ≤ (calculateSubtaskProgress m).total ∧
    calculateSubtaskProgress [] = { completed := 0, total := 0 } := by
  have hfil := filter_map_snd_length m (fun s => s.completed == true)
  constructor
  · cases m <;> simp [calculateSubtaskProgress]
  constructor
  · cases hm : m with
    | nil => simp [calculateSubtaskProgress]
    | cons e t =>
        subst hm
        simp only [calculateSubtaskProgress, List.length_map, List.length_cons]
        simp only [hfil]
        simp
  constructor
  · cases m with
    | nil => simp [calculateSubtaskProgress]
    | cons e t =>
        simp only [calculateSubtaskProgress, List.length_map]
        have := List.length_filter_le (fun s : Subtask => s.completed == true)
          ((e :: t).map Prod.snd)
        simp only [List.length_map] at this
        simpa using this
  · rfl

/-- Setting an index of a list to its current element changes nothing. -/
theorem set_getElem_self_eq (l : List BoardTask) (i : Nat) (h : i < l.length) :
    l.set i l[i] = l := by
  apply List.ext_getElem?
  intro n
  rw [List.getElem?_set]
  by_cases hin : i = n
  · subst hin
    rw [if_pos rfl, if_pos h, List.getElem?_eq_getElem h]
  · simp [hin]

theorem getProp_cons (e : String × Subtask) (t : List (String × Subtask)) (k : String) :
    getProp (e :: t) k = if e.1 = k then some e.2 else getProp t k := rfl

theorem toggleSubtaskEntry_cons (sid : String) (e : String × Subtask)
    (t : List (String × Subtask)) :
    toggleSubtaskEntry sid (e :: t) =
      (if e.1 = sid then (e.1, { e.2 with completed := !e.2.completed }) else e) ::
        toggleSubtaskEntry sid t := by
  simp [toggleSubtaskEntry]

theorem toggleSubtaskEntry_getProp_self (sid : String) (entries : List (String × Subtask))
    (st : Subtask) (h : getProp entries sid = some st) :
    getProp (toggleSubtaskEntry sid entries) sid = some { st with completed := !st.completed } := by
  induction entries with
  | nil => simp [getProp] at h
  | cons e t ih =>
      rw [getProp_cons] at h
      rw [toggleSubtaskEntry_cons]
      by_cases he : e.1 = sid
      · rw [if_pos he] at h ⊢
        rw [getProp_cons, if_pos he]
        injection h with h
        rw [h]
      · rw [if_neg he] at h ⊢
        rw [getProp_cons, if_neg he]
        exact ih h

theorem toggleSubtaskEntry_getProp_other (sid k : String) (entries : List (String × Subtask))
    (hk : k ≠ sid) :
    getProp (toggleSubtaskEntry sid entries) k = getProp entries k := by
  induction entries with
  | nil => rfl
  | cons e t ih =>
      rw [toggleSubtaskEntry_cons, getProp_cons, getProp_cons]
      by_cases he : e.1 = sid
      · have hek : ¬e.1 = k := by
          rw [he]
          exact fun hc => hk hc.symm
        rw [if_pos he, if_neg hek, if_neg hek]
        exact ih
      · rw [if_neg he]
        by_cases hke : e.1 = k
        · rw [if_pos hke, if_pos hke]
        · rw [if_neg hke, if_neg hke]
          exact ih

theorem toggleSubtaskEntry_keys (sid : String) (entries : List (String × Subtask)) :
    (toggleSubtaskEntry sid entries).map Prod.fst = entries.map Prod.fst := by
  induction entries with
  | nil => rfl
  | cons e t ih =>
      rw [toggleSubtaskEntry_cons, List.map_cons, List.map_cons, ih]
      by_cases he : e.1 = sid
      · rw [if_pos he]
      · rw [if_neg he]

theorem toggleSubtaskEntry_involutive (sid : String) (entries : List (String × Subtask)) :
    toggleSubtaskEntry sid (toggleSubtaskEntry sid entries) = entries := by
  induction entries with
  | nil => rfl
  | cons e t ih =>
      obtain ⟨ek, ev⟩ := e
      rw [toggleSubtaskEntry_cons]
      by_cases he : ek = sid
      · rw [if_pos he, toggleSubtaskEntry_cons, if_pos he, ih]
        simp [Bool.not_not]
      · rw [if_neg he, toggleSubtaskEntry_cons, if_neg he, ih]

theorem toggleSubtask_of_getElem (tasks : List BoardTask) (i : Nat) (sid : String)
    (bt : BoardTask) (h : tasks[i]? = some bt) :
    toggleSubtask tasks i sid =
      tasks.set i
        { bt with task := { bt.task with subtasks := toggleSubtaskEntry sid bt.task.subtasks } } := by
  simp [toggleSubtask, h]

/-- C4: when `taskIndex` is in range and `subtaskId` is bound to subtask `st`,
`toggleSubtask` keeps the array length, keeps every other task, and replaces
the target task by one equal in every field except that the subtask keyed
`subtaskId` has its `completed` flag negated (name kept, key set kept, other
subtasks kept); and applying `toggleSubtask` twice with the same arguments
restores the original array. -/
theorem toggleSubtask_spec (tasks : List BoardTask) (i : Nat) (sid : String) (st : Subtask)
    (hi : i < tasks.length)
    (hst : getProp (tasks.get ⟨i, hi⟩).task.subtasks sid = some st) :
    (toggleSubtask tasks i sid).length = tasks.length ∧
    (∀ j, j ≠ i → (toggleSubtask tasks i sid)[j]? = tasks[j]?) ∧
    (∃ bt2, (toggleSubtask tasks i sid)[i]? = some bt2 ∧
      bt2.id = (tasks.get ⟨i, hi⟩).id ∧
      bt2.task.title = (tasks.get ⟨i, hi⟩).task.title ∧
      bt2.task.description = (tasks.get ⟨i, hi⟩).task.description ∧
      bt2.task.dueDate = (tasks.get ⟨i, hi⟩).task.dueDate ∧
      bt2.task.priority = (tasks.get ⟨i, hi⟩).task.priority ∧
      bt2.task.badge = (tasks.get ⟨i, hi⟩).task.badge ∧
      bt2.task.category = (tasks.get ⟨i, hi⟩).task.category ∧
      bt2.task.assignedTo = (tasks.get ⟨i, hi⟩).task.assignedTo ∧
      bt2.task.subtasks.map Prod.fst = (tasks.get ⟨i, hi⟩).task.subtasks.map Prod.fst ∧
      getProp bt2.task.subtasks sid = some { st with completed := !st.completed } ∧
      (∀ k, k ≠ sid →
        getProp bt2.task.subtasks k = getProp (tasks.get ⟨i, hi⟩).task.subtasks k)) ∧
    toggleSubtask (toggleSubtask tasks i sid) i sid = tasks := by
  have hgeteq : tasks.get ⟨i, hi⟩ = tasks[i] := rfl
  have hget : tasks[i]? = some tasks[i] := List.getElem?_eq_getElem hi
  rw [hgeteq] at hst ⊢
  have hrw := toggleSubtask_of_getElem tasks i sid tasks[i] hget
  refine ⟨?_, ?_, ?_, ?_⟩
  · rw [hrw, List.length_set]
  · intro j hj
    rw [hrw, List.getElem?_set]
    have hij : ¬i = j := fun h => hj h.symm
    simp [hij]
  · refine ⟨{ tasks[i] with task := { tasks[i].task with
        subtasks := toggleSubtaskEntry sid tasks[i].task.subtasks } }, ?_, rfl, rfl, rfl,
      rfl, rfl, rfl, rfl, rfl,
      toggleSubtaskEntry_keys sid _, toggleSubtaskEntry_getProp_self sid _ st hst,
      fun k hk => toggleSubtaskEntry_getProp_other sid k _ hk⟩
    rw [hrw, List.getElem?_set]
    simp [hi]
  · rw [hrw]
    have h2 : (tasks.set i { tasks[i] with task := { tasks[i].task with
        subtasks := toggleSubtaskEntry sid tasks[i].task.subtasks } })[i]? =
        some { tasks[i] with task := { tasks[i].task with
          subtasks := toggleSubtaskEntry sid tasks[i].task.subtasks } } := by
      rw [List.getElem?_set]
      simp [hi]
    rw [toggleSubtask_of_getElem _ i sid _ h2, List.set_set]
    have h3 : { tasks[i] with task := { tasks[i].task with
        subtasks := toggleSubtaskEntry sid (toggleSubtaskEntry sid tasks[i].task.subtasks) } } =
        tasks[i] := by
      rw [toggleSubtaskEntry_involutive]
    rw [h3]
    exact set_getElem_self_eq tasks i hi

/-- C4 witness: on the concrete board `sampleBoard`, toggling subtask `s1`
of task `0` satisfies every clause of `toggleSubtask_spec`. -/
theorem toggleSubtask_spec_witness :
    (toggleSubtask sampleBoard 0 "s1").length = sampleBoard.length ∧
    (∀ j, j ≠ 0 → (toggleSubtask sampleBoard 0 "s1")[j]? = sampleBoard[j]?) ∧
    (∃ bt2, (toggleSubtask sampleBoard 0 "s1")[0]? = some bt2 ∧
      bt2.id = (sampleBoard.get ⟨0, by decide⟩).id ∧
      bt2.task.title = (sampleBoard.get ⟨0, by decide⟩).task.title ∧
      bt2.task.description = (sampleBoard.get ⟨0, by decide⟩).task.description ∧
      bt2.task.dueDate = (sampleBoard.get ⟨0, by decide⟩).task.dueDate ∧
      bt2.task.priority = (sampleBoard.get ⟨0, by decide⟩).task.priority ∧
      bt2.task.badge = (sampleBoard.get ⟨0, by decide⟩).task.badge ∧
      bt2.task.category = (sampleBoard.get ⟨0, by decide⟩).task.category ∧
      bt2.task.assignedTo = (sampleBoard.get ⟨0, by decide⟩).task.assignedTo ∧
      bt2.task.subtasks.map Prod.fst =
        (sampleBoard.get ⟨0, by decide⟩).task.subtasks.map Prod.fst ∧
      getProp bt2.task.subtasks "s1" =
        some { name := "b", completed := !true } ∧
      (∀ k, k ≠ "s1" →
        getProp bt2.task.subtasks k =
          getProp (sampleBoard.get ⟨0, by decide⟩).task.subtasks k)) ∧
    toggleSubtask (toggleSubtask sampleBoard 0 "s1") 0 "s1" = sampleBoard :=
  toggleSubtask_spec sampleBoard 0 "s1" { name := "b", completed := true }
    (by decide) (by decide)

theorem updateCountStep_fields (c : Counters) (t : BoardTask) :
    (updateCountStep c t).taskCount = c.taskCount + 1 ∧
    (updateCountStep c t).ToDoCount =
      c.ToDoCount + (if t.task.category = "To-Do" then 1 else 0) ∧
    (updateCountStep c t).doneCount =
      c.doneCount + (if t.task.category = "Done" then 1 else 0) ∧
    (updateCountStep c t).progressCount =
      c.progressCount + (if t.task.category = "In Progress" then 1 else 0) ∧
    (updateCountStep c t).feedbackCount =
      c.feedbackCount + (if t.task.category = "Await Feedback" then 1 else 0) ∧
    (updateCountStep c t).urgencyCount =
      c.urgencyCount + (if t.task.priority = "urgent" then 1 else 0) := by
  simp only [updateCountStep]
  by_cases h1 : t.task.category = "To-Do" <;>
    by_cases h2 : t.task.category = "Done" <;>
    by_cases h3 : t.task.category = "In Progress" <;>
    by_cases h4 : t.task.category = "Await Feedback" <;>
    by_cases h5 : t.task.priority = "urgent" <;>
    simp_all

theorem updateCount_accum (tasks : List BoardTask) : ∀ init : Counters,
    updateCount init tasks =
      { taskCount := init.taskCount + tasks.length,
        ToDoCount := init.ToDoCount +
          (tasks.filter fun t => t.task.category = "To-Do").length,
        doneCount := init.doneCount +
          (tasks.filter fun t => t.task.category = "Done").length,
        progressCount := init.progressCount +
          (tasks.filter fun t => t.task.category = "In Progress").length,
        feedbackCount := init.feedbackCount +
          (tasks.filter fun t => t.task.category = "Await Feedback").length,
        urgencyCount := init.urgencyCount +
          (tasks.filter fun t => t.task.priority = "urgent").length } := by
  induction tasks with
  | nil => intro init; simp [updateCount]
  | cons h t ih =>
      intro init
      have hstep : updateCount init (h :: t) = updateCount (updateCountStep init h) t := rfl
      obtain ⟨f1, f2, f3, f4, f5, f6⟩ := updateCountStep_fields init h
      rw [hstep, ih, f1, f2, f3, f4, f5, f6]
      simp only [List.filter_cons, List.length_cons, decide_eq_true_eq]
      refine Counters.mk.injEq .. ▸ ⟨?_, ?_, ?_, ?_, ?_, ?_⟩ <;>
        first
        | omega
        | (split <;> simp_arith)

/-- C7: starting from all counters at zero, `updateCount` leaves `taskCount`
equal to the number of tasks, the four column counters equal to the number of
tasks whose `category` is exactly the respective column string, and
`urgencyCount` equal to the number of tasks with `priority` exactly
`"urgent"`; any other category contributes to `taskCount` only. -/
theorem updateCount_spec (tasks : List BoardTask) :
    updateCount countersZero tasks =
      { taskCount := tasks.length,
        ToDoCount := (tasks.filter fun t => t.task.category = "To-Do").length,
        doneCount := (tasks.filter fun t => t.task.category = "Done").length,
        progressCount := (tasks.filter fun t => t.task.category = "In Progress").length,
        feedbackCount := (tasks.filter fun t => t.task.category = "Await Feedback").length,
        urgencyCount := (tasks.filter fun t => t.task.priority = "urgent").length } := by
  rw [updateCount_accum tasks countersZero]
  simp [countersZero]

/-- C1: `login` hands `processLogin` a defined contact exactly when some
stored contact matches both the entered email and the entered password under
strict string equality; any contact it returns is such a match; and when no
contact matches, `processLogin` receives `undefined` and performs neither
the `currentUser` write nor the redirect to `summary.html`. -/
theorem login_spec (contacts : List RawContact) (email password : String) :
    ((login contacts email password).isSome ↔
      ∃ c ∈ contacts, c.email = email ∧ c.password = password) ∧
    (∀ c, login contacts email password = some c →
      c ∈ contacts ∧ c.email = email ∧ c.password = password) ∧
    ((∀ c ∈ contacts, ¬(c.email = email ∧ c.password = password)) →
      processLogin (login contacts email password) =
        { currentUserWrite := none, redirect := none }) := by
  refine ⟨?_, ?_, ?_⟩
  · rw [login, List.find?_isSome]
    constructor
    · rintro ⟨c, hc, hp⟩
      simp only [Bool.and_eq_true, beq_iff_eq] at hp
      exact ⟨c, hc, hp⟩
    · rintro ⟨c, hc, h1, h2⟩
      exact ⟨c, hc, by simp [h1, h2]⟩
  · intro c hc
    have hmem := List.mem_of_find?_eq_some hc
    have hp := List.find?_some hc
    simp only [Bool.and_eq_true, beq_iff_eq] at hp
    exact ⟨hmem, hp⟩
  · intro h
    have hnone : login contacts email password = none := by
      rw [login, List.find?_eq_none]
      intro x hx
      simp only [Bool.and_eq_true, beq_iff_eq]
      exact fun hpq => h x hx hpq
    rw [hnone]
    rfl

/-- C1 witness: on the concrete collection `sampleContacts`, all three
clauses of `login_spec` hold for a matching pair and the scan finds the
matching contact; the failing-closed clause is exercised by
`login_spec` at a pair matching no stored contact. -/
theorem login_spec_witness :
    (((login sampleContacts "erika@join.de" "pw2").isSome ↔
      ∃ c ∈ sampleContacts, c.email = "erika@join.de" ∧ c.password = "pw2") ∧
     (∀ c, login sampleContacts "erika@join.de" "pw2" = some c →
       c ∈ sampleContacts ∧ c.email = "erika@join.de" ∧ c.password = "pw2") ∧
     ((∀ c ∈ sampleContacts, ¬(c.email = "erika@join.de" ∧ c.password = "pw2")) →
       processLogin (login sampleContacts "erika@join.de" "pw2") =
         { currentUserWrite := none, redirect := none })) ∧
    processLogin (login sampleContacts "max@join.de" "wrong") =
      { currentUserWrite := none, redirect := none } :=
  ⟨login_spec sampleContacts "erika@join.de" "pw2",
   (login_spec sampleContacts "max@join.de" "wrong").2.2 (by decide)⟩

/-- C9: for a non-empty selection of `N` contacts, `getAssignedContacts`
returns an object whose keys are exactly `contact1 .. contactN` in order and
whose value at `contactI` is the `{name, color}` snapshot of the `I`-th
selected contact; for the empty selection it returns the empty string. -/
theorem getAssignedContacts_spec (sel : List Contact) :
    (sel = [] → getAssignedContacts sel = .emptyString) ∧
    (sel ≠ [] → ∃ entries, getAssignedContacts sel = .map entries ∧
      entries.map Prod.fst =
        (List.range sel.length).map (fun i => "contact" ++ toString (i + 1)) ∧
      (∀ i, entries[i]? = sel[i]?.map fun c =>
        ("contact" ++ toString (i + 1),
          ({ name := c.name, color := c.color } : NameColor)))) := by
  constructor
  · intro h
    subst h
    rfl
  · intro h
    have hlen : 0 < sel.length := List.length_pos.mpr h
    refine ⟨_, by rw [getAssignedContacts, if_pos hlen], ?_, ?_⟩
    · rw [List.map_map]
      rw [show ((Prod.fst ∘ fun p : Nat × Contact =>
          ("contact" ++ toString (p.1 + 1),
            ({ name := p.2.name, color := p.2.color } : NameColor)))) =
          ((fun i => "contact" ++ toString (i + 1)) ∘ Prod.fst) from rfl]
      rw [← List.map_map, List.enum_map_fst]
    · intro i
      rw [List.getElem?_map, List.getElem?_enum]
      cases sel[i]? <;> rfl

/-- C9 witness: the two-contact selection `sampleSelected` satisfies both
clauses of `getAssignedContacts_spec`, and the empty selection yields the
empty string. -/
theorem getAssignedContacts_spec_witness :
    ((sampleSelected = [] → getAssignedContacts sampleSelected = .emptyString) ∧
     (sampleSelected ≠ [] → ∃ entries, getAssignedContacts sampleSelected = .map entries ∧
       entries.map Prod.fst =
         (List.range sampleSelected.length).map (fun i => "contact" ++ toString (i + 1)) ∧
       (∀ i, entries[i]? = sampleSelected[i]?.map fun c =>
         ("contact" ++ toString (i + 1),
           ({ name := c.name, color := c.color } : NameColor))))) ∧
    getAssignedContacts [] = .emptyString :=
  ⟨getAssignedContacts_spec sampleSelected, (getAssignedContacts_spec []).1 rfl⟩

theorem initialsOfParts_of_nonempty (l : List String) (h : ∀ p ∈ l, p ≠ "") :
    initialsOfParts l =
      some (l.filterMap fun p => p.toList.head?.map Char.toUpper) := by
  induction l with
  | nil => rfl
  | cons p rest ih =>
      have hp : p ≠ "" := h p (List.mem_cons_self p rest)
      have hne : p.toList ≠ [] := by
        intro hc
        apply hp
        cases p with
        | mk data => simpa [String.toList] using congrArg String.mk hc
      cases hcs : p.toList with
      | nil => exact absurd hcs hne
      | cons c cs =>
          rw [initialsOfParts]
          simp only [hcs, List.filterMap_cons, Option.map_some, List.head?]
          rw [ih fun q hq => h q (List.mem_cons_of_mem p hq)]
          rfl

/-- C10: `getInitials` returns `"G"` for a missing, empty, or exactly
`"guest"` name; on any other name all of whose space-separated segments are
non-empty it is total and returns the uppercased first characters of the
segments truncated to at most two; and a name with consecutive spaces makes
the source fault (an empty segment reaches `part[0].toUpperCase()`). -/
theorem getInitials_spec :
    getInitials none = some "G" ∧
    getInitials (some "") = some "G" ∧
    getInitials (some "guest") = some "G" ∧
    (∀ n, n ≠ "" → n ≠ "guest" → (∀ p ∈ jsSplit ' ' n, p ≠ "") →
      getInitials (some n) = some (String.mk
        (((jsSplit ' ' n).filterMap fun p => p.toList.head?.map Char.toUpper).take 2))) ∧
    getInitials (some "a  b") = none := by
  refine ⟨rfl, rfl, rfl, ?_, by decide⟩
  intro n h1 h2 h3
  rw [getInitials, if_neg (by push_neg; exact ⟨h1, h2⟩)]
  rw [initialsOfParts_of_nonempty _ h3]

/-- C10 witness: `getInitials_spec`'s total clause evaluated at the concrete
name `"Max Mustermann"` yields `"MM"`. -/
theorem getInitials_spec_witness : getInitials (some "Max Mustermann") = some "MM" :=
  (getInitials_spec.2.2.2.1 "Max Mustermann" (by decide) (by decide)
    (by decide)).trans (by decide)

theorem splitChars_ne_nil (sep : Char) (cs : List Char) : splitChars sep cs ≠ [] := by
  induction cs with
  | nil => simp [splitChars]
  | cons c rest ih =>
      simp only [splitChars]
      by_cases h : c = sep
      · simp [h]
      · simp only [if_neg h]
        cases hs : splitChars sep rest <;> simp

theorem splitChars_single_intro (sep : Char) (x : List Char) (hx : sep ∉ x) :
    splitChars sep x = [x] := by
  induction x with
  | nil => rfl
  | cons c rest ih =>
      have hc : ¬c = sep := fun h => hx (h ▸ List.mem_cons_self c rest)
      have hrest : sep ∉ rest := fun h => hx (List.mem_cons_of_mem c h)
      simp only [splitChars, if_neg hc, ih hrest]

theorem splitChars_single_of (sep : Char) (cs x : List Char)
    (h : splitChars sep cs = [x]) : cs = x ∧ sep ∉ x := by
  induction cs generalizing x with
  | nil =>
      simp only [splitChars] at h
      injection h with h1 _
      subst h1
      exact ⟨rfl, List.not_mem_nil sep⟩
  | cons c rest ih =>
      simp only [splitChars] at h
      by_cases hc : c = sep
      · rw [if_pos hc] at h
        injection h with _ h2
        exact absurd h2 (splitChars_ne_nil sep rest)
      · rw [if_neg hc] at h
        cases hs : splitChars sep rest with
        | nil => exact absurd hs (splitChars_ne_nil sep rest)
        | cons hd tl =>
            rw [hs] at h
            injection h with h1 h2
            subst h2
            obtain ⟨hrest, hmem⟩ := ih hd hs
            subst hrest h1
            exact ⟨rfl, by
              intro hm
              rcases List.mem_cons.mp hm with h | h
              · exact hc h.symm
              · exact hmem h⟩

theorem splitChars_pair_intro (sep : Char) (a b : List Char)
    (ha : sep ∉ a) (hb : sep ∉ b) :
    splitChars sep (a ++ sep :: b) = [a, b] := by
  induction a with
  | nil =>
      simp only [List.nil_append, splitChars, splitChars_single_intro sep b hb]
      simp
  | cons c a2 ih =>
      have hc : ¬c = sep := fun h => ha (h ▸ List.mem_cons_self c a2)
      have ha2 : sep ∉ a2 := fun h => ha (List.mem_cons_of_mem c h)
      have hstep : splitChars sep ((c :: a2) ++ sep :: b) =
          match splitChars sep (a2 ++ sep :: b) with
          | [] => [[c]]
          | h :: t => (c :: h) :: t := by
        simp only [List.cons_append, splitChars, if_neg hc]
        rfl
      rw [hstep, ih ha2]

theorem splitChars_pair_of (sep : Char) (cs a b : List Char)
    (h : splitChars sep cs = [a, b]) :
    cs = a ++ sep :: b ∧ sep ∉ a ∧ sep ∉ b := by
  induction cs generalizing a with
  | nil => simp [splitChars] at h
  | cons c rest ih =>
      simp only [splitChars] at h
      by_cases hc : c = sep
      · rw [if_pos hc] at h
        injection h with h1 h2
        subst h1
        obtain ⟨hrest, hmem⟩ := splitChars_single_of sep rest b (by
          cases hs : splitChars sep rest
          · exact absurd hs (splitChars_ne_nil sep rest)
          · rw [hs] at h2
            exact h2)
        subst hrest hc
        exact ⟨rfl, List.not_mem_nil c, hmem⟩
      · rw [if_neg hc] at h
        cases hs : splitChars sep rest with
        | nil => exact absurd hs (splitChars_ne_nil sep rest)
        | cons hd tl =>
            rw [hs] at h
            injection h with h1 h2
            subst h1
            have htl : splitChars sep rest = [hd, b] := by
              rw [hs]
              rw [show tl = [b] from h2]
            obtain ⟨hrest, hhd, hb⟩ := ih hd htl
            subst hrest
            refine ⟨rfl, ?_, hb⟩
            intro hm
            rcases List.mem_cons.mp hm with h | h
            · exact hc h.symm
            · exact hhd h

theorem validateEmail_iff (e : String) :
    validateEmail e = true ↔ emailRegexLang e := by
  constructor
  · intro hv
    unfold validateEmail at hv
    split at hv
    case _ l r heq =>
      rw [Bool.and_eq_true] at hv
      obtain ⟨hl, hrest⟩ := hv
      split at hrest
      case _ d t heq2 =>
        rw [Bool.and_eq_true, Bool.and_eq_true] at hrest
        obtain ⟨⟨hd, hdall⟩, ht⟩ := hrest
        rw [Bool.and_eq_true, Bool.and_eq_true] at ht
        obtain ⟨⟨ht2, ht6⟩, htall⟩ := ht
        obtain ⟨hcs, hsl, hsr⟩ := splitChars_pair_of '@' e.toList l r heq
        obtain ⟨hr, hdd, hdt⟩ := splitChars_pair_of '.' r d t heq2
        rw [Bool.and_eq_true] at hl
        obtain ⟨hlne, hlall⟩ := hl
        refine ⟨l, d, t, by rw [hcs, hr], ?_, ?_, ?_, ?_, ?_, ?_, ?_⟩
        · intro hc
          subst hc
          simp at hlne
        · intro c hc
          refine ⟨?_, fun hc2 => hsl (hc2 ▸ hc)⟩
          have := List.all_eq_true.mp hlall c hc
          simpa using this
        · intro hc
          subst hc
          simp at hd
        · exact fun c hc => List.all_eq_true.mp hdall c hc
        · exact Nat.le_of_ble_eq_true (by simpa using ht2)
        · exact Nat.le_of_ble_eq_true (by simpa using ht6)
        · exact fun c hc => List.all_eq_true.mp htall c hc
      case _ hne => simp at hrest
    case _ hne => simp at hv
  · rintro ⟨l, d, t, he, hlne, hlchars, hdne, hdchars, ht2, ht6, htchars⟩
    have hsl : '@' ∉ l := fun hm => (hlchars _ hm).2 rfl
    have hsr : '@' ∉ d ++ '.' :: t := by
      intro hm
      rcases List.mem_append.mp hm with h | h
      · have := hdchars _ h
        simp [isAlnumHyphen, isAsciiLetter] at this
      · rcases List.mem_cons.mp h with h | h
        · exact absurd h.symm (by decide)
        · have := htchars _ h
          simp [isAsciiLetter] at this
    have hdd : '.' ∉ d := by
      intro hm
      have := hdchars _ hm
      simp [isAlnumHyphen, isAsciiLetter] at this
    have hdt : '.' ∉ t := by
      intro hm
      have := htchars _ hm
      simp [isAsciiLetter] at this
    have hsplit1 : splitChars '@' e.toList = [l, d ++ '.' :: t] := by
      rw [he]
      exact splitChars_pair_intro '@' l (d ++ '.' :: t) hsl hsr
    have hsplit2 : splitChars '.' (d ++ '.' :: t) = [d, t] :=
      splitChars_pair_intro '.' d t hdd hdt
    unfold validateEmail
    rw [hsplit1]
    simp only [hsplit2]
    simp only [Bool.and_eq_true, List.all_eq_true]
    refine ⟨⟨by simpa using hlne, fun c hc => by simpa using (hlchars c hc).1⟩,
      ⟨by simpa using hdne, fun c hc => hdchars c hc⟩, ⟨?_, ?_⟩,
      fun c hc => htchars c hc⟩
    · simpa using Nat.ble_eq_true_of_le ht2
    · simpa using Nat.ble_eq_true_of_le ht6

theorem validateContactFields_eq_true_iff (name email phone : String) :
    validateContactFields name email phone = true ↔
      (name ≠ "" ∧ email ≠ "" ∧ phone ≠ "" ∧
       ¬((jsSplit ' ' name).length < 2) ∧
       validateEmail email = true ∧ validatePhone phone = true) := by
  rw [validateContactFields]
  by_cases h1 : name = "" <;> by_cases h2 : email = "" <;> by_cases h3 : phone = "" <;>
    by_cases h4 : (jsSplit ' ' name).length < 2 <;>
    by_cases h5 : validateEmail email = true <;>
    by_cases h6 : validatePhone phone = true <;>
    simp [h1, h2, h3, h4, h5, h6]

theorem shownErrorMessage_isSome_eq (name email phone : String) :
    (shownErrorMessage name email phone).isSome = !(validateContactFields name email phone) := by
  rw [shownErrorMessage, validateContactFields]
  by_cases h1 : (name = "" || email = "" || phone = "") = true <;>
    by_cases h4 : (jsSplit ' ' name).length < 2 <;>
    by_cases h5 : validateEmail email = true <;>
    by_cases h6 : validatePhone phone = true <;>
    simp [h1, h4, h5, h6]

/-- C2: `saveNewContact` issues the POST exactly when `validateContactFields`
returns true, which holds exactly when all three trimmed fields are
non-empty, the name splits on single spaces into at least two parts, the
email is in the language of `/^[^\s@]+@[a-zA-Z0-9-]+\.[a-zA-Z]{2,6}$/`, and
the phone is a non-empty string of digits `0-9`; when validation fails an
error message is shown and no write happens. -/
theorem saveNewContact_spec (name email phone color : String) :
    ((saveNewContact name email phone color).isSome ↔
      validateContactFields name email phone = true) ∧
    (validateContactFields name email phone = true ↔
      (name ≠ "" ∧ email ≠ "" ∧ phone ≠ "" ∧
       2 ≤ (jsSplit ' ' name).length ∧
       emailRegexLang email ∧
       phone.toList ≠ [] ∧ (∀ c ∈ phone.toList, isDigit09 c = true))) ∧
    (validateContactFields name email phone = false →
      saveNewContact name email phone color = none ∧
      (shownErrorMessage name email phone).isSome) := by
  refine ⟨?_, ?_, ?_⟩
  · by_cases hv : validateContactFields name email phone = true <;>
      simp [saveNewContact, hv]
  · rw [validateContactFields_eq_true_iff]
    constructor
    · rintro ⟨hn, he, hp, h4, h5, h6⟩
      rw [validatePhone, Bool.and_eq_true] at h6
      refine ⟨hn, he, hp, Nat.le_of_not_lt h4, (validateEmail_iff email).mp h5, ?_, ?_⟩
      · simpa using h6.1
      · exact List.all_eq_true.mp h6.2
    · rintro ⟨hn, he, hp, h4, h5, hp1, hp2⟩
      refine ⟨hn, he, hp, Nat.not_lt.mpr h4, (validateEmail_iff email).mpr h5, ?_⟩
      rw [validatePhone, Bool.and_eq_true]
      exact ⟨by simpa using hp1, List.all_eq_true.mpr hp2⟩
  · intro hv
    refine ⟨by simp [saveNewContact, hv], ?_⟩
    rw [shownErrorMessage_isSome_eq, hv]
    rfl

/-- C2 witness: the valid triple (`"Max Mustermann"`, `"max@join.de"`,
`"0123"`) satisfies every clause of `saveNewContact_spec`. -/
theorem saveNewContact_spec_witness :
    (((saveNewContact "Max Mustermann" "max@join.de" "0123" "#FF0000").isSome ↔
      validateContactFields "Max Mustermann" "max@join.de" "0123" = true) ∧
     (validateContactFields "Max Mustermann" "max@join.de" "0123" = true ↔
       ("Max Mustermann" ≠ "" ∧ "max@join.de" ≠ "" ∧ "0123" ≠ "" ∧
        2 ≤ (jsSplit ' ' "Max Mustermann").length ∧
        emailRegexLang "max@join.de" ∧
        "0123".toList ≠ [] ∧ (∀ c ∈ "0123".toList, isDigit09 c = true))) ∧
     (validateContactFields "Max Mustermann" "max@join.de" "0123" = false →
       saveNewContact "Max Mustermann" "max@join.de" "0123" "#FF0000" = none ∧
       (shownErrorMessage "Max Mustermann" "max@join.de" "0123").isSome)) ∧
    validateContactFields "Max Mustermann" "max@join.de" "0123" = true :=
  ⟨saveNewContact_spec "Max Mustermann" "max@join.de" "0123" "#FF0000", by decide⟩

theorem generateRandomColor_ne_empty (pick : Nat → Nat) :
    generateRandomColor pick ≠ "" := by
  intro h
  have h2 := congrArg String.data h
  simp [generateRandomColor] at h2

theorem jsOrString_ne_empty (v : Option String) (d : String) (hd : d ≠ "") :
    jsOrString v d ≠ "" := by
  cases v with
  | none => exact hd
  | some s =>
      by_cases hs : s = "" <;> simp [jsOrString, hs, hd]

/-- C5: every contact in a successfully loaded collection has a non-empty
color (`processContacts` substitutes a freshly generated `#`-prefixed hex
color for a falsy stored one), and `ensureColorsInDatabase` PATCHes exactly
the contacts whose raw fetched record has a falsy color: every issued PATCH
targets a colorless record, and every colorless record of a loaded contact
gets a PATCH with that contact's color. -/
theorem contact_colors_spec (le : String → String → Bool) (picks : Nat → Nat → Nat)
    (data : List (String × RawContact)) :
    (∀ cs, loadContacts le (fun i => generateRandomColor (picks i)) (.ok (some data)) =
        some cs → ∀ c ∈ cs, c.color ≠ "") ∧
    (∀ i2 ∈ (ensureColorsInDatabase
        (processContacts le (fun i => generateRandomColor (picks i)) data) data).map Prod.fst,
      ∃ raw, getProp data i2 = some raw ∧ jsTruthyStr raw.color = false) ∧
    (∀ c ∈ processContacts le (fun i => generateRandomColor (picks i)) data,
      ∀ raw, getProp data c.id = some raw → jsTruthyStr raw.color = false →
        (c.id, c.color) ∈ ensureColorsInDatabase
          (processContacts le (fun i => generateRandomColor (picks i)) data) data) := by
  refine ⟨?_, ?_, ?_⟩
  · intro cs hcs c hc
    have hcs2 : processContacts le (fun i => generateRandomColor (picks i)) data = cs := by
      simpa [loadContacts] using hcs
    rw [← hcs2] at hc
    rw [processContacts] at hc
    rw [(List.mergeSort_perm _ _).mem_iff] at hc
    obtain ⟨p, _, hpc⟩ := List.mem_map.mp hc
    rw [← hpc]
    exact jsOrString_ne_empty _ _ (generateRandomColor_ne_empty _)
  · intro i2 hi2
    obtain ⟨pr, hpr, hfst⟩ := List.mem_map.mp hi2
    obtain ⟨contact, _, hf⟩ := List.mem_filterMap.mp hpr
    revert hf
    cases hgp : getProp data contact.id with
    | none => intro hf; simp at hf
    | some raw =>
        intro hf
        by_cases ht : jsTruthyStr raw.color = true
        · simp [ht] at hf
        · have ht2 : jsTruthyStr raw.color = false := by
            cases h : jsTruthyStr raw.color
            · rfl
            · exact absurd h ht
          simp [ht2] at hf
          refine ⟨raw, ?_, ht2⟩
          rw [← hfst, ← hf]
          exact hgp
  · intro c hc raw hraw ht
    apply List.mem_filterMap.mpr
    refine ⟨c, hc, ?_⟩
    simp only [hraw, ht]
    rfl

/-- C8 counterexample: with a concrete comparator and color supply,
`loadContacts` on a fetch that succeeds with `null` data returns `undefined`
(modelled `none`), not the empty array the claim asserts for all collection
loaders. -/
theorem loadContacts_null_counterexample :
    loadContacts (fun a b => decide (a ≤ b)) (fun _ => "#ABCDEF") (.ok none) = none ∧
    loadContacts (fun a b => decide (a ≤ b)) (fun _ => "#ABCDEF") (.ok none) ≠ some [] :=
  ⟨rfl, by intro h; cases h⟩

/-- C8 (amended): on a caught fetch error all three loaders take the catch
branch (`[]` for `loadTasks`/`loadTaskContacts`, `[]` for `loadContacts`);
on `null` data `loadTasks` and `loadTaskContacts` return `[]`, but
`loadContacts` falls through its `if (data)` with no return and yields
`undefined`. -/
theorem loaders_failure_spec (le : String → String → Bool) (gen : Nat → String) :
    loadTasks (.error ()) = [] ∧ loadTasks (.ok none) = [] ∧
    loadTaskContacts le gen (.error ()) = [] ∧ loadTaskContacts le gen (.ok none) = [] ∧
    loadContacts le gen (.error ()) = some [] ∧ loadContacts le gen (.ok none) = none :=
  ⟨rfl, rfl, rfl, rfl, rfl, rfl⟩

theorem renderStep_of_seen (seen : List String) (c : Contact)
    (h : firstLetterOf c ∈ seen) : renderStep seen c = ([.card c], seen) := by
  simp [renderStep, h]

theorem renderStep_of_not_seen (seen : List String) (c : Contact)
    (h : firstLetterOf c ∉ seen) :
    renderStep seen c = ([.divider (firstLetterOf c), .card c], firstLetterOf c :: seen) := by
  simp [renderStep, h]

theorem renderFrom_cards (cs : List Contact) : ∀ seen,
    (renderFrom seen cs).filterMap cardOf = cs := by
  induction cs with
  | nil => intro seen; rfl
  | cons c rest ih =>
      intro seen
      rw [renderFrom]
      by_cases h : firstLetterOf c ∈ seen
      · rw [renderStep_of_seen seen c h]
        simp [List.filterMap_append, cardOf, ih]
      · rw [renderStep_of_not_seen seen c h]
        simp [List.filterMap_append, cardOf, ih]

theorem card_mem_renderFrom (cs : List Contact) (seen : List String) (c : Contact)
    (hc : c ∈ cs) : RenderItem.card c ∈ renderFrom seen cs := by
  have h := renderFrom_cards cs seen
  rw [← h] at hc
  obtain ⟨it, hit, hcard⟩ := List.mem_filterMap.mp hc
  cases it with
  | card c2 =>
      injection hcard with hcc
      rw [← hcc]
      exact hit
  | divider L => simp [cardOf] at hcard

theorem countItem_append (it : RenderItem) (a b : List RenderItem) :
    countItem it (a ++ b) = countItem it a + countItem it b := by
  simp [countItem, List.filter_append]

theorem renderFrom_countDivider (L : String) (cs : List Contact) : ∀ seen,
    countItem (.divider L) (renderFrom seen cs) =
      if L ∉ seen ∧ L ∈ cs.map firstLetterOf then 1 else 0 := by
  induction cs with
  | nil => intro seen; simp [renderFrom, countItem]
  | cons c rest ih =>
      intro seen
      rw [renderFrom]
      by_cases h : firstLetterOf c ∈ seen
      · rw [renderStep_of_seen seen c h, countItem_append, ih seen]
        have hhead : countItem (RenderItem.divider L) [RenderItem.card c] = 0 := by
          simp [countItem]
        rw [hhead]
        simp only [List.map_cons, List.mem_cons]
        by_cases hL : L = firstLetterOf c
        · have hs : L ∈ seen := by rw [hL]; exact h
          simp [hs, hL, h]
        · by_cases hs : L ∈ seen <;> by_cases hr : L ∈ List.map firstLetterOf rest <;>
            simp [hs, hr, hL]
      · rw [renderStep_of_not_seen seen c h, countItem_append, ih (firstLetterOf c :: seen)]
        simp only [List.map_cons, List.mem_cons]
        by_cases hL : L = firstLetterOf c
        · have hhead : countItem (RenderItem.divider L)
              [RenderItem.divider (firstLetterOf c), RenderItem.card c] = 1 := by
            simp [countItem, hL]
          rw [hhead]
          have hnseen : L ∉ seen := by rw [hL]; exact h
          simp [hnseen, hL, h]
        · have hL2 : ¬(firstLetterOf c = L) := fun hx => hL hx.symm
          have hhead : countItem (RenderItem.divider L)
              [RenderItem.divider (firstLetterOf c), RenderItem.card c] = 0 := by
            simp [countItem, hL2]
          rw [hhead]
          by_cases hs : L ∈ seen <;> by_cases hr : L ∈ List.map firstLetterOf rest <;>
            simp [hs, hr, hL]

theorem renderFrom_append (p q : List Contact) : ∀ seen,
    renderFrom seen (p ++ q) = renderFrom seen p ++ renderFrom (seenAfter seen p) q := by
  induction p with
  | nil => intro seen; simp [renderFrom, seenAfter]
  | cons c rest ih =>
      intro seen
      rw [List.cons_append, renderFrom, renderFrom, seenAfter, ih, List.append_assoc]

theorem mem_seenAfter (L : String) (p : List Contact) : ∀ seen,
    L ∈ seenAfter seen p ↔ L ∈ seen ∨ L ∈ p.map firstLetterOf := by
  induction p with
  | nil => intro seen; simp [seenAfter]
  | cons c rest ih =>
      intro seen
      rw [seenAfter]
      by_cases h : firstLetterOf c ∈ seen
      · rw [renderStep_of_seen seen c h]
        rw [ih seen]
        simp only [List.map_cons, List.mem_cons]
        constructor
        · rintro (hs | hr)
          · exact Or.inl hs
          · exact Or.inr (Or.inr hr)
        · rintro (hs | hfl | hr)
          · exact Or.inl hs
          · exact Or.inl (by rw [hfl]; exact h)
          · exact Or.inr hr
      · rw [renderStep_of_not_seen seen c h]
        rw [ih (firstLetterOf c :: seen)]
        simp only [List.map_cons, List.mem_cons]
        tauto

theorem renderFrom_divider_before (cs : List Contact) : ∀ seen c, c ∈ cs →
    firstLetterOf c ∉ seen → ∃ pre post,
      renderFrom seen cs = pre ++ .divider (firstLetterOf c) :: post ∧
      RenderItem.card c ∈ post := by
  induction cs with
  | nil => intro seen c hc; exact absurd hc (List.not_mem_nil c)
  | cons d rest ih =>
      intro seen c hc hnotseen
      by_cases hd : firstLetterOf d ∈ seen
      · rcases List.mem_cons.mp hc with rfl | hcr
        · exact absurd hd hnotseen
        · obtain ⟨pre, post, heq, hmem⟩ := ih seen c hcr hnotseen
          refine ⟨.card d :: pre, post, ?_, hmem⟩
          rw [renderFrom, renderStep_of_seen seen d hd, heq]
          rfl
      · by_cases hfl : firstLetterOf c = firstLetterOf d
        · refine ⟨[], .card d :: renderFrom (firstLetterOf d :: seen) rest, ?_, ?_⟩
          · rw [renderFrom, renderStep_of_not_seen seen d hd, hfl]
            rfl
          · rcases List.mem_cons.mp hc with rfl | hcr
            · exact List.mem_cons_self _ _
            · exact List.mem_cons_of_mem _
                (card_mem_renderFrom rest (firstLetterOf d :: seen) c hcr)
        · have hnot2 : firstLetterOf c ∉ firstLetterOf d :: seen := by
            intro hm
            rcases List.mem_cons.mp hm with hx | hx
            · exact hfl hx
            · exact hnotseen hx
          have hcr : c ∈ rest := by
            rcases List.mem_cons.mp hc with rfl | hx
            · exact absurd rfl hfl
            · exact hx
          obtain ⟨pre, post, heq, hmem⟩ := ih (firstLetterOf d :: seen) c hcr hnot2
          refine ⟨.divider (firstLetterOf d) :: .card d :: pre, post, ?_, hmem⟩
          rw [renderFrom, renderStep_of_not_seen seen d hd, heq]
          rfl

/-- C6: `processContacts` returns the processed contacts sorted by the
`localeCompare` order `le` on names (`Pairwise` plus a permutation of the
processed entries), and `renderContactsList` groups them by uppercased first
letter: the cards, in order, are exactly the contacts; each occurring first
letter gets exactly one divider; the divider sits immediately before the
first contact with that letter; and every contact appears after the divider
of its own first letter. -/
theorem renderContacts_spec (le : String → String → Bool)
    (htrans : ∀ a b c, le a b = true → le b c = true → le a c = true)
    (htotal : ∀ a b, (le a b || le b a) = true)
    (gen : Nat → String) (data : List (String × RawContact)) :
    List.Pairwise (fun a b => le a.name b.name = true) (processContacts le gen data) ∧
    (processContacts le gen data).Perm
      (data.enum.map fun p =>
        { id := p.2.1, name := p.2.2.name, email := p.2.2.email, phone := p.2.2.phone,
          password := p.2.2.password, color := jsOrString p.2.2.color (gen p.1) : Contact }) ∧
    (renderContactsList (processContacts le gen data)).filterMap cardOf =
      processContacts le gen data ∧
    (∀ L, countItem (.divider L) (renderContactsList (processContacts le gen data)) =
      if L ∈ (processContacts le gen data).map firstLetterOf then 1 else 0) ∧
    (∀ p c0 r, processContacts le gen data = p ++ c0 :: r →
      (∀ x ∈ p, firstLetterOf x ≠ firstLetterOf c0) →
      renderContactsList (processContacts le gen data) =
        renderContactsList p ++ .divider (firstLetterOf c0) :: .card c0 ::
          renderFrom (firstLetterOf c0 :: seenAfter [] p) r) ∧
    (∀ c ∈ processContacts le gen data, ∃ pre post,
      renderContactsList (processContacts le gen data) =
        pre ++ .divider (firstLetterOf c) :: post ∧ RenderItem.card c ∈ post) := by
  refine ⟨?_, ?_, ?_, ?_, ?_, ?_⟩
  · exact List.sorted_mergeSort
      (fun a b c hab hbc => htrans a.name b.name c.name hab hbc)
      (fun a b => htotal a.name b.name) _
  · exact List.mergeSort_perm _ _
  · exact renderFrom_cards _ []
  · intro L
    rw [renderContactsList, renderFrom_countDivider L _ []]
    simp
  · intro p c0 r hdecomp hp
    rw [renderContactsList, hdecomp, renderFrom_append]
    have hnot : firstLetterOf c0 ∉ seenAfter [] p := by
      rw [mem_seenAfter]
      rintro (h | h)
      · exact absurd h (List.not_mem_nil _)
      · obtain ⟨x, hx, hfx⟩ := List.mem_map.mp h
        exact hp x hx hfx
    rw [renderFrom, renderStep_of_not_seen _ c0 hnot]
    rfl
  · intro c hc
    exact renderFrom_divider_before _ [] c hc (List.not_mem_nil _)

/-- C5 witness: the color invariants instantiated on the concrete collection
`sampleRawData` (one record with a stored color, one without). -/
theorem contact_colors_spec_witness :
    (∀ cs, loadContacts localeLe (fun i => generateRandomColor (wPicks i))
        (.ok (some sampleRawData)) = some cs → ∀ c ∈ cs, c.color ≠ "") ∧
    (∀ i2 ∈ (ensureColorsInDatabase
        (processContacts localeLe (fun i => generateRandomColor (wPicks i)) sampleRawData)
        sampleRawData).map Prod.fst,
      ∃ raw, getProp sampleRawData i2 = some raw ∧ jsTruthyStr raw.color = false) ∧
    (∀ c ∈ processContacts localeLe (fun i => generateRandomColor (wPicks i)) sampleRawData,
      ∀ raw, getProp sampleRawData c.id = some raw → jsTruthyStr raw.color = false →
        (c.id, c.color) ∈ ensureColorsInDatabase
          (processContacts localeLe (fun i => generateRandomColor (wPicks i)) sampleRawData)
          sampleRawData) :=
  contact_colors_spec localeLe wPicks sampleRawData

/-- C6 witness: sorting and grouping instantiated at the string order and
the concrete collection `sampleRawData`, with transitivity and totality of
the comparator discharged. -/
theorem renderContacts_spec_witness :
    List.Pairwise (fun a b => localeLe a.name b.name = true)
      (processContacts localeLe flatGen sampleRawData) ∧
    (processContacts localeLe flatGen sampleRawData).Perm
      (sampleRawData.enum.map fun p =>
        { id := p.2.1, name := p.2.2.name, email := p.2.2.email, phone := p.2.2.phone,
          password := p.2.2.password,
          color := jsOrString p.2.2.color (flatGen p.1) : Contact }) ∧
    (renderContactsList (processContacts localeLe flatGen sampleRawData)).filterMap cardOf =
      processContacts localeLe flatGen sampleRawData ∧
    (∀ L, countItem (.divider L)
        (renderContactsList (processContacts localeLe flatGen sampleRawData)) =
      if L ∈ (processContacts localeLe flatGen sampleRawData).map firstLetterOf
        then 1 else 0) ∧
    (∀ p c0 r, processContacts localeLe flatGen sampleRawData = p ++ c0 :: r →
      (∀ x ∈ p, firstLetterOf x ≠ firstLetterOf c0) →
      renderContactsList (processContacts localeLe flatGen sampleRawData) =
        renderContactsList p ++ .divider (firstLetterOf c0) :: .card c0 ::
          renderFrom (firstLetterOf c0 :: seenAfter [] p) r) ∧
    (∀ c ∈ processContacts localeLe flatGen sampleRawData, ∃ pre post,
      renderContactsList (processContacts localeLe flatGen sampleRawData) =
        pre ++ .divider (firstLetterOf c) :: post ∧ RenderItem.card c ∈ post) :=
  renderContacts_spec localeLe
    (fun a b c hab hbc =>
      decide_eq_true (le_trans (of_decide_eq_true hab) (of_decide_eq_true hbc)))
    (fun a b => by
      rcases le_total a b with h | h
      · simp [localeLe, h]
      · simp [localeLe, h])
    flatGen sampleRawData

end Join
